import Mathlib

/-!
# Verification of the `veri-toplama-backend` location service

Shallow embedding of the `GET /get-location` and `POST /resolve` handlers of
`cmd/app/main.go` (the variant with inline handlers).  Floating-point
coordinates are modelled as exact rationals (`ℚ`); the external collaborators
(upstream source, Mongo repositories, the random number generator and Go's
`%f` float formatter) are modelled as explicit function parameters, assumed
error-free where the claims are not about their failures.
-/

set_option autoImplicit false

namespace VeriToplama

/-- `repository/locations.Location` as used by the handlers: `EntryID`,
`Loc` (a latitude/longitude pair; the upstream data always carries exactly
two coordinates, so `Loc []float64` is modelled as a pair), `Epoch`, and the
two transient display fields filled in on selection. -/
structure Location where
  entryID : Int
  loc : ℚ × ℚ
  epoch : Int
  originalMessage : String
  originalLocation : String
  deriving DecidableEq, Repr

instance : Inhabited Location := ⟨⟨0, (0, 0), 0, "", ""⟩⟩

/-- A value of the `cities` map: the four floats
`{box[0], box[1], box[2], box[3]}` of one registered region. -/
structure GeoBox where
  b0 : ℚ
  b1 : ℚ
  b2 : ℚ
  b3 : ℚ
  deriving DecidableEq, Repr

/-- The `cities` map of `main.go` (Go map lookup on a missing key returns the
zero value, modelled as `none`). -/
def citiesMap : Int → Option GeoBox
  | 1 => some ⟨36.852702785393014, 36.87286376953126, 36.535570922786015, 35.88409423828126⟩
  | 2 => some ⟨36.2104851748389, 36.81861877441407, 35.84286468375614, 35.82984924316407⟩
  | 3 => some ⟨36.495937096205274, 36.649870522206335, 36.064120488812605, 35.4740187605459⟩
  | 4 => some ⟨36.50903585150776, 36.402143998719424, 36.47976138594277, 36.31474829364722⟩
  | 5 => some ⟨36.64234742932176, 36.3232450328562, 36.53629731173617, 36.029282092441115⟩
  | 6 => some ⟨36.116001873480265, 36.06470054394251, 36.0627178139989, 35.91771907373497⟩
  | 7 => some ⟨38.53348725642158, 38.78062516773912, 37.32756763881127, 35.45481415037825⟩
  | 8 => some ⟨37.35461473302187, 38.0755896764663, 36.85431769725969, 36.67725839531126⟩
  | 9 => some ⟨39.065058845523424, 40.013647871307754, 37.86798402826048, 36.687836853946884⟩
  | 10 => some ⟨38.160827052916495, 39.33362355320935, 37.44250898099215, 37.35608449070936⟩
  | _ => none

/-- The membership test of the geographic filter, in source order:
`box[0] >= loc.Loc[0] && box[1] >= loc.Loc[1] && box[2] <= loc.Loc[0] && box[3] <= loc.Loc[1]`. -/
def inBox (b : GeoBox) (l : Location) : Bool :=
  decide (b.b0 ≥ l.loc.1) && decide (b.b1 ≥ l.loc.2) &&
    decide (b.b2 ≤ l.loc.1) && decide (b.b3 ≤ l.loc.2)

/-- The geographic filter loop: append to `filteredLocations` every location
inside the box, preserving order. -/
def geoFilterList (b : GeoBox) : List Location → List Location
  | [] => []
  | l :: ls => if inBox b l then l :: geoFilterList b ls else geoFilterList b ls

/-- The `city_id` step of the `GET /get-location` handler.  `box :=
cities[cityID]` itself never fails, but when `cityID` is positive and not a
key of the map, `box` is the nil slice and the loop body's `box[0]` panics on
the first iteration; the panic is modelled as `none`.  With an empty pool the
loop body never runs, and `locations` is replaced by the empty
`filteredLocations`. -/
def geoStep (cityID : Int) (locs : List Location) : Option (List Location) :=
  if 0 < cityID then
    match citiesMap cityID with
    | some b => some (geoFilterList b locs)
    | none => if locs.isEmpty then some [] else none
  else
    some locs

/-- The time filter loop: keep the locations with `loc.Epoch >= startingAt`,
preserving order. -/
def timeFilterList (startingAt : Int) : List Location → List Location
  | [] => []
  | l :: ls =>
      if l.epoch ≥ startingAt then l :: timeFilterList startingAt ls
      else timeFilterList startingAt ls

/-- The `starting_at` step of the handler: the filter runs only when
`startingAt > 0`. -/
def timeStep (startingAt : Int) (locs : List Location) : List Location :=
  if 0 < startingAt then timeFilterList startingAt locs else locs

/-- The anonymous response struct `{count, location}` serialized by the
handler (`location = none` encodes the JSON `null`). -/
structure Response where
  count : Nat
  location : Option Location
  deriving DecidableEq, Repr

/-! ## The resolved-entry removal loop

The handler removes already-resolved entries with

    for _, l := range locs {
      for i, loc := range locations {
        if l.EntryID == loc.EntryID {
          locations = append(locations[:i], locations[i+1:]...)
          continue
        }
      }
    }

The inner `range` snapshots the slice header of `locations` (base pointer and
length) once, but reads each element through the live backing array, which the
in-place `append(locations[:i], locations[i+1:]...)` mutates.  We therefore
model the slice as a backing array `buf` (whose length never changes) plus the
current slice length `len`. -/
structure SliceState where
  buf : List Location
  len : Nat
  deriving DecidableEq, Repr

/-- Effect of `append(locations[:i], locations[i+1:]...)` on the backing
array, assuming `i + 1 ≤ len ≤ buf.length`: elements `i+1 .. len-1` shift one
slot left; slots from `len-1` on keep their (now stale) contents. -/
def goRemove (buf : List Location) (i len : Nat) : List Location :=
  buf.take i ++ (buf.drop (i + 1)).take (len - 1 - i) ++ buf.drop (len - 1)

/-- One inner scan for resolved id `d`: `rem` counts the iterations left out
of the snapshot bound (the slice length at scan entry), `i` is the current
index.  On a match, `locations[i+1:]` needs `i + 1 ≤ len(locations)`;
otherwise Go raises a slice-bounds panic, modelled as `none`. -/
def scanAux (d : Int) : Nat → Nat → SliceState → Option SliceState
  | 0, _, s => some s
  | rem + 1, i, s =>
      let loc := s.buf.getD i default
      if loc.entryID = d then
        if i + 1 ≤ s.len then
          scanAux d rem (i + 1) ⟨goRemove s.buf i s.len, s.len - 1⟩
        else
          none
      else
        scanAux d rem (i + 1) s

/-- The outer loop over the resolved entry ids (`GetLocations` records are
used only through `l.EntryID`, so they are modelled as their ids). -/
def removeResolvedAux : List Int → SliceState → Option SliceState
  | [], s => some s
  | d :: ds, s =>
      match scanAux d s.len 0 s with
      | none => none
      | some s' => removeResolvedAux ds s'

/-- Step 1 of the handler: remove resolved entries from the candidate list.
`none` models a slice-bounds panic; otherwise the result is the live part of
the final slice. -/
def removeResolved (resolvedIds : List Int) (locations : List Location) :
    Option (List Location) :=
  (removeResolvedAux resolvedIds ⟨locations, locations.length⟩).map
    fun s => s.buf.take s.len

/-! ## The selection loop

    for {
      randIndex := rand.Intn(len(locations))
      if len(processed) == len(locations) { return {0, null} }
      for _, i := range processed { if randIndex == i { continue } }
      processed = append(processed, randIndex)
      s := locations[randIndex]
      singleData := GetSingleLocation(s.EntryID)          // fullTextOf
      exists := IsDuplicate(singleData.FullText)          // isDup
      if !exists { selected = s; fullText = ...; break }
    }

The inner `for ... { if randIndex == i { continue } }` loop has no effect: its
`continue` targets the inner loop itself, so it never skips an iteration of
the outer loop, and the sampled index is appended to `processed`
unconditionally.  `rand.Intn` is modelled by the stream `rands`; successive
calls read `rands k`, `rands (k+1)`, ….  The returned list records, in order,
the index of every candidate actually fetched and duplicate-checked; the
second component is `some (candidate, fullText)` on acceptance and `none`
when the loop exits with the empty `{0, null}` response. -/
def selectLoop (locations : List Location) (rands : Nat → Nat)
    (fullTextOf : Int → String) (isDup : String → Bool) :
    (k : Nat) → (processed : List Nat) →
    processed.length ≤ locations.length → List Nat × Option (Location × String)
  | k, processed, hp =>
      let randIndex := rands k
      if h : processed.length = locations.length then
        ([], none)
      else
        let s := locations.getD randIndex default
        let ft := fullTextOf s.entryID
        if isDup ft then
          let r := selectLoop locations rands fullTextOf isDup (k + 1)
            (processed ++ [randIndex])
            (by simpa using Nat.lt_of_le_of_ne hp h)
          (randIndex :: r.1, r.2)
        else
          ([randIndex], some (s, ft))
  termination_by _ processed _ => locations.length - processed.length
  decreasing_by
    simp only [List.length_append, List.length_cons, List.length_nil]
    omega

/-- `fmt.Sprintf("https://www.google.com/maps/?q=%f,%f&ll=%f,%f&z=21", lat,
lon, lat, lon)`: the same coordinate pair is embedded twice, with the fixed
zoom suffix.  `fmtF` abstracts Go's `%f` float formatting. -/
def mapsURL (fmtF : ℚ → String) (lat lon : ℚ) : String :=
  "https://www.google.com/maps/?q=" ++ fmtF lat ++ "," ++ fmtF lon ++
    "&ll=" ++ fmtF lat ++ "," ++ fmtF lon ++ "&z=21"

/-- The `GET /get-location` handler, with error-free collaborators: the cached
candidate list `locations0`, the resolved ids from `GetLocations`, the query
integers, the per-entry full text, the duplicate oracle, the random stream and
the float formatter.  `none` models a panic in the handler body. -/
def getLocationHandler (locations0 : List Location) (resolvedIds : List Int)
    (cityID startingAt : Int) (fullTextOf : Int → String)
    (isDup : String → Bool) (rands : Nat → Nat) (fmtF : ℚ → String) :
    Option Response :=
  match removeResolved resolvedIds locations0 with
  | none => none
  | some locations1 =>
    match geoStep cityID locations1 with
    | none => none
    | some locations2 =>
      let locations3 := timeStep startingAt locations2
      if locations3.length = 0 then
        some ⟨0, none⟩
      else
        match (selectLoop locations3 rands fullTextOf isDup 0 []
            (Nat.zero_le _)).2 with
        | none => some ⟨0, none⟩
        | some (s, ft) =>
            some ⟨locations3.length,
              some { s with
                originalMessage := ft,
                originalLocation := mapsURL fmtF s.loc.1 s.loc.2 }⟩

/-! ## The `POST /resolve` handler -/

/-- The parsed JSON body of `POST /resolve`. -/
structure ResolveBody where
  id : Int
  locationType : Int
  newAddress : String
  openAddress : String
  apartment : String
  reason : String
  tweetContents : String
  deriving DecidableEq, Repr

/-- `repository/locations.LocationDB`, the durable resolution record built by
the handler (the Mongo `ObjectID`, generated from the wall clock, is omitted;
`Type` is spelled `typ`, and the looked-up `*User` sender is abstracted to an
optional identity). -/
structure LocationDB where
  entryID : Int
  typ : Int
  location : List ℚ
  corrected : Bool
  originalAddress : String
  correctedAddress : String
  reason : String
  sender : Option String
  openAddress : String
  apartment : String
  tweetContents : String
  deriving DecidableEq, Repr

/-- The loop locating the candidate with the body's id: the last match wins,
and with no match the initial `""` / empty slice survive. -/
def findOriginal (fmtF : ℚ → String) (id : Int) (locations : List Location) :
    String × List ℚ :=
  locations.foldl
    (fun acc l =>
      if l.entryID = id then (mapsURL fmtF l.loc.1 l.loc.2, [l.loc.1, l.loc.2])
      else acc)
    ("", [])

/-- The `POST /resolve` handler with error-free collaborators.  The first
component is the record passed to `ResolveLocation` (`none` when no write
happens), the second the plain-text response body. -/
def resolveHandler (isResolved : Int → Bool) (allLocations : List Location)
    (user : Option String) (fmtF : ℚ → String) (body : ResolveBody) :
    Option LocationDB × String :=
  if isResolved body.id then
    (none, "this location is already checked")
  else
    let found := findOriginal fmtF body.id allLocations
    (some
      { entryID := body.id
        typ := body.locationType
        location := found.2
        corrected := body.reason = "Hata Yok"
        originalAddress := found.1
        correctedAddress := body.newAddress
        reason := body.reason
        sender := user
        openAddress := body.openAddress
        apartment := body.apartment
        tweetContents := body.tweetContents },
      "Successfully added!")

/-! ## Concrete sample data, used by witnesses and counterexamples -/

/-- The candidate `{id:1, lat:36.0, lon:36.0, epoch:100}` of the spec scenario. -/
def locEp100 : Location := ⟨1, (36.0, 36.0), 100, "", ""⟩

/-- The candidate `{id:2, lat:0, lon:0, epoch:200}` of the spec scenario. -/
def locEp200 : Location := ⟨2, (0, 0), 200, "", ""⟩

/-- First of two candidates sharing `entryID = 7`. -/
def candA : Location := ⟨7, (1, 1), 10, "", ""⟩

/-- Second candidate with `entryID = 7`. -/
def candB : Location := ⟨7, (2, 2), 20, "", ""⟩

/-- A candidate with a fresh `entryID = 8`. -/
def candC : Location := ⟨8, (3, 3), 30, "", ""⟩

/-- A sample parsed `POST /resolve` body whose reason is the exact string
`"Hata Yok"`. -/
def bodyYok : ResolveBody := ⟨5, 2, "new", "open", "apt", "Hata Yok", "tw"⟩

/-- The record `resolveHandler` persists for `bodyYok` against an empty
candidate list and an anonymous sender. -/
def recYok : LocationDB :=
  ⟨5, 2, [], true, "", "new", "Hata Yok", none, "open", "apt", "tw"⟩

end VeriToplama

namespace VeriToplama

/-! ## Lemmas about the selection loop -/

/-- When the visited list is as long as the pool, the loop returns the empty
result at once. -/
lemma selectLoop_exit (locations : List Location) (rands : Nat → Nat)
    (fullTextOf : Int → String) (isDup : String → Bool) (k : Nat)
    (processed : List Nat) (hp : processed.length ≤ locations.length)
    (h : processed.length = locations.length) :
    selectLoop locations rands fullTextOf isDup k processed hp = ([], none) := by
  rw [selectLoop]
  simp [h]

/-- When every candidate of the pool is a duplicate, the loop examines one
candidate per iteration until the visited list fills up: the examined indices
are exactly the next `locations.length - processed.length` raw samples, and
the result is empty. -/
lemma selectLoop_all_dup (locations : List Location) (rands : Nat → Nat)
    (fullTextOf : Int → String) (isDup : String → Bool)
    (hdup : ∀ l ∈ locations, isDup (fullTextOf l.entryID) = true)
    (hrand : ∀ k, rands k < locations.length) :
    ∀ (fuel k : Nat) (processed : List Nat)
      (hp : processed.length ≤ locations.length),
      fuel = locations.length - processed.length →
      selectLoop locations rands fullTextOf isDup k processed hp =
        ((List.range fuel).map fun j => rands (k + j), none) := by
  intro fuel
  induction fuel with
  | zero =>
      intro k processed hp hfuel
      have h : processed.length = locations.length := by omega
      rw [selectLoop]
      simp [h]
  | succ fuel ih =>
      intro k processed hp hfuel
      have h : ¬ processed.length = locations.length := by omega
      have hmem : locations.getD (rands k) default ∈ locations := by
        rw [List.getD_eq_getElem _ _ (hrand k)]
        exact List.getElem_mem _
      have hd : isDup (fullTextOf (locations.getD (rands k) default).entryID)
          = true := hdup _ hmem
      rw [selectLoop]
      simp only [h, hd, dite_false, if_true]
      rw [ih (k + 1) (processed ++ [rands k])
        (by simpa using Nat.lt_of_le_of_ne hp h) (by simp; omega)]
      rw [List.range_succ_eq_map]
      simp only [List.map_cons, Nat.add_zero, List.map_map, Function.comp]
      have harg : ∀ j : Nat, rands (k + 1 + j) = rands (k + Nat.succ j) := by
        intro j
        have : k + 1 + j = k + Nat.succ j := by omega
        rw [this]
      simp [harg]

/-- Whatever the oracles do, the list of examined indices is an initial
segment of the raw sample stream, of length at most the free space in the
visited list. -/
lemma selectLoop_exams_shape (locations : List Location) (rands : Nat → Nat)
    (fullTextOf : Int → String) (isDup : String → Bool) :
    ∀ (fuel k : Nat) (processed : List Nat)
      (hp : processed.length ≤ locations.length),
      fuel = locations.length - processed.length →
      ∃ m ≤ fuel,
        (selectLoop locations rands fullTextOf isDup k processed hp).1 =
          (List.range m).map fun j => rands (k + j) := by
  intro fuel
  induction fuel with
  | zero =>
      intro k processed hp hfuel
      have h : processed.length = locations.length := by omega
      refine ⟨0, Nat.le_refl _, ?_⟩
      rw [selectLoop_exit locations rands fullTextOf isDup k processed hp h]
      simp
  | succ fuel ih =>
      intro k processed hp hfuel
      by_cases h : processed.length = locations.length
      · refine ⟨0, Nat.zero_le _, ?_⟩
        rw [selectLoop_exit locations rands fullTextOf isDup k processed hp h]
        simp
      · rw [selectLoop]
        simp only [h, dite_false]
        by_cases hd : isDup (fullTextOf
            ((locations.getD (rands k) default).entryID)) = true
        · simp only [hd, if_true]
          obtain ⟨m, hm, he⟩ := ih (k + 1) (processed ++ [rands k])
            (by simpa using Nat.lt_of_le_of_ne hp h) (by simp; omega)
          refine ⟨m + 1, by omega, ?_⟩
          rw [he, List.range_succ_eq_map]
          simp only [List.map_cons, Nat.add_zero, List.map_map, Function.comp]
          have harg : ∀ j : Nat, rands (k + 1 + j) = rands (k + Nat.succ j) := by
            intro j
            have : k + 1 + j = k + Nat.succ j := by omega
            rw [this]
          simp [harg]
        · simp only [hd, if_false]
          refine ⟨1, by omega, ?_⟩
          simp [List.range_succ]

/-- The loop only accepts a candidate together with the full text fetched for
its own `entryID`. -/
lemma selectLoop_accept (locations : List Location) (rands : Nat → Nat)
    (fullTextOf : Int → String) (isDup : String → Bool) :
    ∀ (fuel k : Nat) (processed : List Nat)
      (hp : processed.length ≤ locations.length),
      fuel = locations.length - processed.length →
      ∀ (s : Location) (ft : String),
        (selectLoop locations rands fullTextOf isDup k processed hp).2 =
          some (s, ft) →
        ft = fullTextOf s.entryID := by
  intro fuel
  induction fuel with
  | zero =>
      intro k processed hp hfuel s ft hacc
      have h : processed.length = locations.length := by omega
      rw [selectLoop_exit locations rands fullTextOf isDup k processed hp h]
        at hacc
      simp at hacc
  | succ fuel ih =>
      intro k processed hp hfuel s ft hacc
      by_cases h : processed.length = locations.length
      · rw [selectLoop_exit locations rands fullTextOf isDup k processed hp h]
          at hacc
        simp at hacc
      · rw [selectLoop] at hacc
        simp only [h, dite_false] at hacc
        by_cases hd : isDup (fullTextOf
            ((locations.getD (rands k) default).entryID)) = true
        · simp only [hd, if_true] at hacc
          exact ih (k + 1) (processed ++ [rands k])
            (by simpa using Nat.lt_of_le_of_ne hp h) (by simp; omega) s ft hacc
        · simp only [hd, if_false] at hacc
          obtain ⟨hs, hft⟩ := Prod.mk.injEq .. ▸ (Option.some.injEq .. ▸ hacc)
          rw [← hft, ← hs]

/-- With no resolved entries the removal step is the identity. -/
lemma removeResolved_nil (locations : List Location) :
    removeResolved [] locations = some locations := by
  simp [removeResolved, removeResolvedAux]

/-! ## Claims C1 and C2: the selection loop -/

/-- C1, counterexample: on the pool `[locEp100, locEp200]` with the random
stream constantly `0` and an all-duplicates oracle, index `0` is fetched and
duplicate-checked twice — the in-loop visited check does not prevent
resampling, refuting the claim that each index is examined at most once. -/
theorem selection_resamples_visited_index :
    ((selectLoop [locEp100, locEp200] (fun _ => 0) (fun _ => "t")
        (fun _ => true) 0 [] (Nat.zero_le _)).1.count 0) = 2 := by
  have h := selectLoop_all_dup [locEp100, locEp200] (fun _ => 0) (fun _ => "t")
    (fun _ => true) (fun l _ => rfl) (fun k => by simp) 2 0 [] (Nat.zero_le _)
    (by simp)
  rw [h]
  rfl

/-- C1, amended: every sampled index is appended to the visited list and
examined, even when already visited; the loop still terminates (the function
is total), the examined indices are exactly the first `m` raw samples of the
random stream for some `m`, and at most `pool.length` examinations occur. -/
theorem selection_records_repeated_samples (pool : List Location)
    (rands : Nat → Nat) (fullTextOf : Int → String) (isDup : String → Bool) :
    ∃ m ≤ pool.length,
      (selectLoop pool rands fullTextOf isDup 0 [] (Nat.zero_le _)).1 =
        (List.range m).map fun j => rands j := by
  obtain ⟨m, hm, he⟩ := selectLoop_exams_shape pool rands fullTextOf isDup
    pool.length 0 [] (Nat.zero_le _) (by simp)
  exact ⟨m, by simpa using hm, by simpa using he⟩

/-- C2: on a non-empty pool in which every candidate is a duplicate, the
selection loop performs exactly `pool.length` fetch/duplicate-check
examinations, returns no candidate, and the handler answers with the empty
result `{count: 0, location: null}`. -/
theorem all_duplicate_pool_terminates_empty (pool : List Location)
    (rands : Nat → Nat) (fullTextOf : Int → String) (isDup : String → Bool)
    (fmtF : ℚ → String) (hne : pool ≠ [])
    (hdup : ∀ l ∈ pool, isDup (fullTextOf l.entryID) = true)
    (hrand : ∀ k, rands k < pool.length) :
    (selectLoop pool rands fullTextOf isDup 0 [] (Nat.zero_le _)).1.length
        = pool.length ∧
    (selectLoop pool rands fullTextOf isDup 0 [] (Nat.zero_le _)).2 = none ∧
    getLocationHandler pool [] 0 0 fullTextOf isDup rands fmtF =
      some ⟨0, none⟩ := by
  have h := selectLoop_all_dup pool rands fullTextOf isDup hdup hrand
    pool.length 0 [] (Nat.zero_le _) (by simp)
  refine ⟨by rw [h]; simp, by rw [h], ?_⟩
  have hgeo : geoStep 0 pool = some pool := by simp [geoStep]
  have htime : timeStep 0 pool = pool := by simp [timeStep]
  have hlen : ¬ pool.length = 0 := by
    simpa [List.length_eq_zero] using hne
  unfold getLocationHandler
  simp only [removeResolved_nil, hgeo, htime, hlen, if_false, h]

/-- C2, witness: the all-duplicates scenario on the concrete two-element pool
with samples `0, 1, 0, 1, …`. -/
theorem all_duplicate_pool_terminates_empty_witness :
    (selectLoop [locEp100, locEp200] (fun k => k % 2) (fun _ => "t")
        (fun _ => true) 0 [] (Nat.zero_le _)).1.length = 2 ∧
    (selectLoop [locEp100, locEp200] (fun k => k % 2) (fun _ => "t")
        (fun _ => true) 0 [] (Nat.zero_le _)).2 = none ∧
    getLocationHandler [locEp100, locEp200] [] 0 0 (fun _ => "t")
        (fun _ => true) (fun k => k % 2) (fun _ => "") = some ⟨0, none⟩ := by
  have h := all_duplicate_pool_terminates_empty [locEp100, locEp200]
    (fun k => k % 2) (fun _ => "t") (fun _ => true) (fun _ => "")
    (by simp) (fun l _ => rfl) (fun k => Nat.mod_lt _ (by norm_num))
  simpa using h

/-! ## Claims C4 to C7: the filters and the empty-pool contract -/

/-- C4: membership in the geographic filter output is exactly membership in
the input together with the four inclusive comparisons of the source
(`box[0] >= lat`, `box[1] >= lon`, `box[2] <= lat`, `box[3] <= lon`); hence a
candidate lying exactly on a boundary is retained, a candidate strictly
outside any single bound is excluded, and both axes must satisfy their
inequalities. -/
theorem geo_filter_inclusive_bounds (b : GeoBox) (locs : List Location)
    (l : Location) :
    l ∈ geoFilterList b locs ↔
      l ∈ locs ∧ l.loc.1 ≤ b.b0 ∧ l.loc.2 ≤ b.b1 ∧
        b.b2 ≤ l.loc.1 ∧ b.b3 ≤ l.loc.2 := by
  have hbox : ∀ y : Location, inBox b y = true ↔
      y.loc.1 ≤ b.b0 ∧ y.loc.2 ≤ b.b1 ∧ b.b2 ≤ y.loc.1 ∧ b.b3 ≤ y.loc.2 := by
    intro y
    simp [inBox, ge_iff_le, and_assoc]
  induction locs with
  | nil => simp [geoFilterList]
  | cons x xs ih =>
      by_cases h : inBox b x
      · rw [geoFilterList, if_pos h]
        have hx := (hbox x).mp h
        simp only [List.mem_cons, ih]
        constructor
        · rintro (rfl | ⟨hm, hP⟩)
          · exact ⟨Or.inl rfl, hx⟩
          · exact ⟨Or.inr hm, hP⟩
        · rintro ⟨rfl | hm, hP⟩
          · exact Or.inl rfl
          · exact Or.inr ⟨hm, hP⟩
      · rw [geoFilterList, if_neg h]
        have hx := fun hc => h ((hbox x).mpr hc)
        simp only [List.mem_cons, ih]
        constructor
        · rintro ⟨hm, hP⟩
          exact ⟨Or.inr hm, hP⟩
        · rintro ⟨rfl | hm, hP⟩
          · exact absurd hP hx
          · exact ⟨hm, hP⟩

/-- C5: the claim is right and the code is wrong.  For the positive
`cityID = 11`, which is not a key of the `cities` map, and a non-empty pool,
the handler does not pass the pool through: `box` is the nil slice and the
loop body indexes `box[0]`, a panic (modelled as `none`). -/
theorem unknown_city_id_crashes :
    citiesMap 11 = none ∧
    getLocationHandler [locEp100] [] 11 0 (fun _ => "") (fun _ => true)
      (fun _ => 0) (fun _ => "") = none := ⟨rfl, rfl⟩

/-- C6: `starting_at = 0` leaves the pool unchanged, and any positive cutoff
`T` retains exactly the candidates with `epoch ≥ T`, in order. -/
theorem time_filter_noop_and_cutoff :
    (∀ locs : List Location, timeStep 0 locs = locs) ∧
    (∀ (T : Int) (locs : List Location), 0 < T →
      timeStep T locs = locs.filter fun l => decide (T ≤ l.epoch)) := by
  constructor
  · intro locs
    simp [timeStep]
  · intro T locs hT
    rw [timeStep, if_pos hT]
    induction locs with
    | nil => rfl
    | cons x xs ih =>
        rw [timeFilterList, List.filter_cons]
        by_cases h : T ≤ x.epoch
        · rw [if_pos h, ih]
          simp [h]
        · rw [if_neg h, ih]
          simp [h]

/-- C6, witness: the spec scenario `starting_at = 150` on the two-candidate
pool keeps exactly the `epoch = 200` candidate. -/
theorem time_filter_noop_and_cutoff_witness :
    (0 : Int) < 150 ∧
    timeStep 150 [locEp100, locEp200] =
      [locEp100, locEp200].filter (fun l => decide ((150 : Int) ≤ l.epoch)) ∧
    timeStep 150 [locEp100, locEp200] = [locEp200] :=
  ⟨by norm_num,
   time_filter_noop_and_cutoff.2 150 [locEp100, locEp200] (by norm_num),
   by rfl⟩

/-- C7: whenever the three filter steps leave an empty pool, the handler
returns the defined empty result `{count: 0, location: null}` rather than an
error. -/
theorem empty_filtered_pool_empty_response (locations0 : List Location)
    (resolvedIds : List Int) (cityID startingAt : Int)
    (fullTextOf : Int → String) (isDup : String → Bool) (rands : Nat → Nat)
    (fmtF : ℚ → String) (l1 l2 : List Location)
    (h1 : removeResolved resolvedIds locations0 = some l1)
    (h2 : geoStep cityID l1 = some l2)
    (h3 : timeStep startingAt l2 = []) :
    getLocationHandler locations0 resolvedIds cityID startingAt fullTextOf
      isDup rands fmtF = some ⟨0, none⟩ := by
  unfold getLocationHandler
  simp only [h1, h2, h3, List.length_nil, if_pos rfl, if_true]

/-- C7, witness: the empty request (no candidates at all) yields the empty
response. -/
theorem empty_filtered_pool_empty_response_witness :
    getLocationHandler [] [] 0 0 (fun _ => "") (fun _ => true) (fun _ => 0)
      (fun _ => "") = some ⟨0, none⟩ :=
  empty_filtered_pool_empty_response [] [] 0 0 (fun _ => "") (fun _ => true)
    (fun _ => 0) (fun _ => "") [] [] rfl rfl rfl

/-! ## Claims C8 to C10: the success response and the resolve handler -/

/-- C9: when the loop accepts a candidate, the response carries the length of
the filtered pool as `count` and the candidate enriched with
`originalMessage` = the fetched full text and `originalLocation` = the maps
URL embedding its coordinate pair twice with the fixed zoom; the accepted
full text is exactly the text fetched for the candidate. -/
theorem success_response_fields (locations0 : List Location)
    (resolvedIds : List Int) (cityID startingAt : Int)
    (fullTextOf : Int → String) (isDup : String → Bool) (rands : Nat → Nat)
    (fmtF : ℚ → String) (l1 l2 : List Location) (s : Location) (ft : String)
    (h1 : removeResolved resolvedIds locations0 = some l1)
    (h2 : geoStep cityID l1 = some l2)
    (hacc : (selectLoop (timeStep startingAt l2) rands fullTextOf isDup 0 []
        (Nat.zero_le _)).2 = some (s, ft)) :
    getLocationHandler locations0 resolvedIds cityID startingAt fullTextOf
        isDup rands fmtF =
      some ⟨(timeStep startingAt l2).length,
        some { s with
          originalMessage := ft,
          originalLocation := mapsURL fmtF s.loc.1 s.loc.2 }⟩ ∧
    ft = fullTextOf s.entryID := by
  constructor
  · have hne : ¬ (timeStep startingAt l2).length = 0 := by
      intro h0
      rw [selectLoop_exit (timeStep startingAt l2) rands fullTextOf isDup 0 []
        (Nat.zero_le _) (by simp [h0])] at hacc
      simp at hacc
    unfold getLocationHandler
    simp only [h1, h2, hne, if_false, hacc]
  · exact selectLoop_accept (timeStep startingAt l2) rands fullTextOf isDup
      (timeStep startingAt l2).length 0 [] (Nat.zero_le _) (by simp) s ft hacc

/-- C9, witness: a one-candidate pool with a non-duplicate oracle produces the
enriched success response. -/
theorem success_response_fields_witness :
    getLocationHandler [locEp100] [] 0 0 (fun _ => "txt") (fun _ => false)
        (fun _ => 0) (fun _ => "F") =
      some ⟨(timeStep 0 [locEp100]).length,
        some { locEp100 with
          originalMessage := "txt",
          originalLocation :=
            mapsURL (fun _ => "F") locEp100.loc.1 locEp100.loc.2 }⟩ ∧
    "txt" = (fun _ : Int => "txt") locEp100.entryID :=
  success_response_fields [locEp100] [] 0 0 (fun _ => "txt") (fun _ => false)
    (fun _ => 0) (fun _ => "F") [locEp100] [locEp100] locEp100 "txt" rfl rfl
    (by rw [selectLoop]; simp [timeStep])

/-- C8: the resolve handler checks `isResolved` first: an already-resolved id
is rejected with the plain message and nothing is written, while a first
resolution writes a record and answers with the plain text
`"Successfully added!"`. -/
theorem resolve_checks_resolved_first (isResolved : Int → Bool)
    (allLocations : List Location) (user : Option String) (fmtF : ℚ → String)
    (body : ResolveBody) :
    (isResolved body.id = true →
      resolveHandler isResolved allLocations user fmtF body =
        (none, "this location is already checked")) ∧
    (isResolved body.id = false →
      ∃ rec, resolveHandler isResolved allLocations user fmtF body =
        (some rec, "Successfully added!")) := by
  constructor
  · intro h
    simp [resolveHandler, h]
  · intro h
    refine ⟨{
        entryID := body.id,
        typ := body.locationType,
        location := (findOriginal fmtF body.id allLocations).2,
        corrected := decide (body.reason = "Hata Yok"),
        originalAddress := (findOriginal fmtF body.id allLocations).1,
        correctedAddress := body.newAddress,
        reason := body.reason,
        sender := user,
        openAddress := body.openAddress,
        apartment := body.apartment,
        tweetContents := body.tweetContents }, ?_⟩
    simp [resolveHandler, h]

/-- C8, witness: the already-resolved case rejects without writing, the fresh
case writes and reports success. -/
theorem resolve_checks_resolved_first_witness :
    ((fun _ : Int => true) bodyYok.id = true ∧
      resolveHandler (fun _ => true) [] none (fun _ => "") bodyYok =
        (none, "this location is already checked")) ∧
    ((fun _ : Int => false) bodyYok.id = false ∧
      ∃ rec, resolveHandler (fun _ => false) [] none (fun _ => "") bodyYok =
        (some rec, "Successfully added!")) :=
  ⟨⟨rfl, (resolve_checks_resolved_first (fun _ => true) [] none (fun _ => "")
      bodyYok).1 rfl⟩,
   ⟨rfl, (resolve_checks_resolved_first (fun _ => false) [] none (fun _ => "")
      bodyYok).2 rfl⟩⟩

/-- C10: every record the resolve handler persists has `corrected = true`
exactly when the request reason is the string `"Hata Yok"`. -/
theorem corrected_iff_reason_hata_yok (isResolved : Int → Bool)
    (allLocations : List Location) (user : Option String) (fmtF : ℚ → String)
    (body : ResolveBody) (rec : LocationDB)
    (h : (resolveHandler isResolved allLocations user fmtF body).1 = some rec) :
    rec.corrected = true ↔ body.reason = "Hata Yok" := by
  by_cases hr : isResolved body.id
  · simp [resolveHandler, hr] at h
  · simp only [resolveHandler, hr, if_neg, Bool.false_eq_true, if_false,
      Option.some.injEq] at h
    rw [← h]
    simp

/-- C10, witness: the concrete body with reason `"Hata Yok"` persists a
record with `corrected = true`. -/
theorem corrected_iff_reason_hata_yok_witness :
    (resolveHandler (fun _ => false) [] none (fun _ => "") bodyYok).1 =
      some recYok ∧
    (recYok.corrected = true ↔ bodyYok.reason = "Hata Yok") :=
  ⟨by decide,
   corrected_iff_reason_hata_yok (fun _ => false) [] none (fun _ => "")
     bodyYok recYok (by decide)⟩

/-! ## Claim C3: the resolved-entry removal loop -/

/-- A scan window containing no match for `d` leaves the slice unchanged. -/
lemma scanAux_skip (d : Int) :
    ∀ (rem i : Nat) (s : SliceState),
      (∀ j, i ≤ j → j < i + rem → (s.buf.getD j default).entryID ≠ d) →
      scanAux d rem i s = some s := by
  intro rem
  induction rem with
  | zero =>
      intro i s h
      rfl
  | succ rem ih =>
      intro i s h
      have hne : (s.buf.getD i default).entryID ≠ d :=
        h i (Nat.le_refl _) (by omega)
      simp only [scanAux, hne, if_false]
      exact ih (i + 1) s fun j hj1 hj2 => h j (by omega) (by omega)

/-- Scanning past a match-free prefix of `cnt` positions advances the index
without touching the slice. -/
lemma scanAux_step_skip (d : Int) :
    ∀ (cnt rem i : Nat) (s : SliceState),
      cnt ≤ rem →
      (∀ j, i ≤ j → j < i + cnt → (s.buf.getD j default).entryID ≠ d) →
      scanAux d rem i s = scanAux d (rem - cnt) (i + cnt) s := by
  intro cnt
  induction cnt with
  | zero =>
      intro rem i s hc h
      simp
  | succ cnt ih =>
      intro rem i s hc h
      cases rem with
      | zero => omega
      | succ rem =>
          have hne : (s.buf.getD i default).entryID ≠ d :=
            h i (Nat.le_refl _) (by omega)
          simp only [scanAux, hne, if_false]
          rw [ih rem (i + 1) s (by omega)
            fun j hj1 hj2 => h j (by omega) (by omega)]
          have e1 : rem - cnt = rem + 1 - (cnt + 1) := by omega
          have e2 : i + 1 + cnt = i + (cnt + 1) := by omega
          rw [e1, e2]

/-- Reading inside the live window of the backing array is reading in the
live list. -/
lemma getD_take_eq (buf : List Location) (n j : Nat) (hj : j < n) :
    (buf.take n).getD j default = buf.getD j default := by
  rw [List.getD_eq_getD_get?, List.getD_eq_getD_get?, List.get?_eq_getElem?,
    List.get?_eq_getElem?, List.getElem?_take_of_lt hj]

/-- One full scan under distinct live ids: the scan never panics, and its
effect on the live list is exactly the removal of the (unique) entry with
`entryID = d`. -/
lemma scanAux_correct (d : Int) (s : SliceState)
    (hlen : s.len ≤ s.buf.length)
    (hnd : ((s.buf.take s.len).map Location.entryID).Nodup) :
    ∃ s', scanAux d s.len 0 s = some s' ∧
      s'.len ≤ s'.buf.length ∧
      s'.buf.take s'.len =
        (s.buf.take s.len).filter fun l => decide (l.entryID ≠ d) := by
  by_cases hd : d ∈ (s.buf.take s.len).map Location.entryID
  · -- the live list holds exactly one entry with id `d`
    obtain ⟨e, heL, heid⟩ := List.mem_map.mp hd
    obtain ⟨A, B, hLdec⟩ := List.append_of_mem heL
    have hLlen : (s.buf.take s.len).length = s.len := by
      rw [List.length_take]; omega
    have hABlen : A.length + (B.length + 1) = s.len := by
      rw [hLdec] at hLlen
      simpa using hLlen
    have hndAB := hLdec ▸ hnd
    rw [List.map_append, List.map_cons, List.nodup_middle, List.nodup_cons,
      heid, List.mem_append] at hndAB
    have hA : ∀ a ∈ A, a.entryID ≠ d := by
      intro a ha he
      exact hndAB.1 (Or.inl (he ▸ List.mem_map_of_mem _ ha))
    have hB : ∀ b ∈ B, b.entryID ≠ d := by
      intro b hb he
      exact hndAB.1 (Or.inr (he ▸ List.mem_map_of_mem _ hb))
    have hbuf : s.buf = A ++ e :: (B ++ s.buf.drop s.len) := by
      conv_lhs => rw [← List.take_append_drop s.len s.buf]
      rw [hLdec]
      simp
    -- step over the match-free prefix `A`
    have hstep1 : scanAux d s.len 0 s =
        scanAux d (B.length + 1) A.length s := by
      have h1 := scanAux_step_skip d A.length s.len 0 s (by omega) ?_
      · rw [h1]
        have e1 : s.len - A.length = B.length + 1 := by omega
        have e2 : (0 : Nat) + A.length = A.length := by omega
        rw [e1, e2]
      · intro j hj0 hjA
        have hjA' : j < A.length := by omega
        rw [hbuf, List.getD_append _ _ _ _ hjA',
          List.getD_eq_getElem _ _ hjA']
        exact hA _ (List.getElem_mem _)
    -- the match at position `A.length` removes `e` and shifts `B` left
    have hAget : s.buf.getD A.length default = e := by
      rw [hbuf, List.getD_append_right _ _ _ _ (Nat.le_refl _)]
      simp
    have hgr : goRemove s.buf A.length s.len =
        A ++ B ++ s.buf.drop (s.len - 1) := by
      rw [goRemove]
      have h1 : s.buf.take A.length = A := by
        rw [hbuf]
        exact List.take_left' rfl
      have h2 : s.buf.drop (A.length + 1) = B ++ s.buf.drop s.len := by
        conv_lhs => rw [hbuf, ← List.singleton_append, ← List.append_assoc]
        exact List.drop_left' (by simp)
      have h3 : (B ++ s.buf.drop s.len).take (s.len - 1 - A.length) = B := by
        apply List.take_left'
        omega
      rw [h1, h2, h3]
    have hDlen : (s.buf.drop (s.len - 1)).length = s.buf.length - (s.len - 1) :=
      List.length_drop _ _
    -- the rest of the scan finds no further match
    have hstep3 : scanAux d B.length (A.length + 1)
        ⟨A ++ B ++ s.buf.drop (s.len - 1), s.len - 1⟩ =
        some ⟨A ++ B ++ s.buf.drop (s.len - 1), s.len - 1⟩ := by
      apply scanAux_skip
      intro j hj1 hj2
      have hmem : (A ++ B ++ s.buf.drop (s.len - 1)).getD j default ∈ B := by
        rcases Nat.lt_or_ge j (A.length + B.length) with hlt | hge
        · have hjAB : j < (A ++ B).length := by simp; omega
          rw [List.getD_append _ _ _ _ hjAB,
            List.getD_append_right _ _ _ _ (by omega)]
          have hjB : j - A.length < B.length := by omega
          rw [List.getD_eq_getElem _ _ hjB]
          exact List.getElem_mem _
        · have hj : j = A.length + B.length := by omega
          have hABl : (A ++ B).length ≤ j := by simp; omega
          rw [List.getD_append_right _ _ _ _ hABl]
          have hlast : s.buf.getD (s.len - 1) default ∈ B := by
            have hBpos : 0 < B.length := by omega
            rw [hbuf]
            have hAle : A.length ≤ s.len - 1 := by omega
            rw [List.getD_append_right _ _ _ _ hAle]
            have hsub : s.len - 1 - A.length = (B.length - 1) + 1 := by omega
            rw [hsub, List.getD_cons_succ]
            have hBlt : B.length - 1 < B.length := by omega
            rw [List.getD_append _ _ _ _ hBlt, List.getD_eq_getElem _ _ hBlt]
            exact List.getElem_mem _
          have hd0 : (s.buf.drop (s.len - 1)).getD (j - (A ++ B).length)
              default = s.buf.getD (s.len - 1) default := by
            have hj0 : j - (A ++ B).length = 0 := by simp; omega
            rw [hj0]
            have hlt : s.len - 1 < s.buf.length := by omega
            have hlt' : 0 < (s.buf.drop (s.len - 1)).length := by omega
            rw [List.getD_eq_getElem _ _ hlt', List.getD_eq_getElem _ _ hlt]
            simp [List.getElem_drop]
          rw [hd0]
          exact hlast
      exact hB _ hmem
    refine ⟨⟨A ++ B ++ s.buf.drop (s.len - 1), s.len - 1⟩, ?_, ?_, ?_⟩
    · rw [hstep1]
      simp only [scanAux, hAget, heid, eq_self_iff_true, if_true]
      rw [if_pos (show A.length + 1 ≤ s.len by omega), hgr]
      exact hstep3
    · simp
      omega
    · have htake : (A ++ B ++ s.buf.drop (s.len - 1)).take (s.len - 1) =
          A ++ B := by
        apply List.take_left'
        simp
        omega
      rw [htake, hLdec, List.filter_append]
      have hfA : A.filter (fun l => decide (l.entryID ≠ d)) = A :=
        List.filter_eq_self.mpr fun a ha => by simpa using hA a ha
      have hfB : B.filter (fun l => decide (l.entryID ≠ d)) = B :=
        List.filter_eq_self.mpr fun b hb => by simpa using hB b hb
      have hfe : (e :: B).filter (fun l => decide (l.entryID ≠ d)) = B := by
        rw [List.filter_cons_of_neg (by simp [heid]), hfB]
      rw [hfA, hfe]
  · -- no live entry has id `d`: the scan is the identity
    have hall : ∀ l ∈ s.buf.take s.len, l.entryID ≠ d := by
      intro l hl he
      exact hd (he ▸ List.mem_map_of_mem _ hl)
    refine ⟨s, ?_, hlen, ?_⟩
    · apply scanAux_skip
      intro j hj0 hjr
      have hj : j < s.len := by omega
      have hjt : j < (s.buf.take s.len).length := by
        rw [List.length_take]; omega
      rw [← getD_take_eq s.buf s.len j hj, List.getD_eq_getElem _ _ hjt]
      exact hall _ (List.getElem_mem _)
    · symm
      rw [List.filter_eq_self]
      intro a ha
      simpa using hall a ha

/-- The outer loop over all resolved ids, under distinct live ids: no panic,
and the final live list is the input filtered of every resolved id. -/
lemma removeResolvedAux_correct :
    ∀ (ds : List Int) (s : SliceState),
      s.len ≤ s.buf.length →
      ((s.buf.take s.len).map Location.entryID).Nodup →
      ∃ s', removeResolvedAux ds s = some s' ∧
        s'.buf.take s'.len =
          (s.buf.take s.len).filter fun l => decide (l.entryID ∉ ds) := by
  intro ds
  induction ds with
  | nil =>
      intro s h1 h2
      refine ⟨s, rfl, ?_⟩
      symm
      rw [List.filter_eq_self]
      intro a ha
      simp
  | cons d ds ih =>
      intro s h1 h2
      obtain ⟨s₁, hscan, hlen₁, hlive₁⟩ := scanAux_correct d s h1 h2
      have h2' : ((s₁.buf.take s₁.len).map Location.entryID).Nodup := by
        rw [hlive₁]
        exact List.Nodup.sublist (List.Sublist.map _ (List.filter_sublist _)) h2
      obtain ⟨s', hrest, hlive'⟩ := ih s₁ hlen₁ h2'
      refine ⟨s', ?_, ?_⟩
      · simp only [removeResolvedAux, hscan]
        exact hrest
      · rw [hlive', hlive₁, List.filter_filter]
        apply List.filter_congr
        intro x hx
        by_cases hxd : x.entryID = d <;> by_cases hxs : x.entryID ∈ ds <;>
          simp [hxd, hxs]

/-- C3, counterexample: with two candidates sharing `entryID = 7` and that id
resolved, the in-place removal shifts the slice under the live `range`
iteration, skips the second copy, and leaves a candidate whose `entryID` is
resolved in the final list. -/
theorem resolved_removal_leaves_resolved_entry :
    removeResolved [7] [candA, candB, candC] = some [candB, candC] ∧
    candB.entryID = 7 := ⟨by decide, rfl⟩

/-- C3, amended: provided the candidates carry pairwise distinct entry ids,
the removal loop panics on no input and removes exactly the candidates whose
`entryID` is resolved, so no remaining candidate has a resolved id. -/
theorem resolved_removal_distinct_ids (resolvedIds : List Int)
    (locations : List Location)
    (hnd : (locations.map Location.entryID).Nodup) :
    removeResolved resolvedIds locations =
      some (locations.filter fun l => decide (l.entryID ∉ resolvedIds)) ∧
    ∀ l ∈ locations.filter (fun l => decide (l.entryID ∉ resolvedIds)),
      l.entryID ∉ resolvedIds := by
  obtain ⟨s', h1, h2⟩ := removeResolvedAux_correct resolvedIds
    ⟨locations, locations.length⟩ (Nat.le_refl _) (by simpa using hnd)
  have h2' : s'.buf.take s'.len =
      locations.filter fun l => decide (l.entryID ∉ resolvedIds) := by
    simpa using h2
  constructor
  · rw [removeResolved, h1]
    simp [h2']
  · intro l hl
    simpa using (List.mem_filter.mp hl).2

/-- C3, witness for the amended claim: distinct ids `1, 2` with id `1`
resolved. -/
theorem resolved_removal_distinct_ids_witness :
    ([locEp100, locEp200].map Location.entryID).Nodup ∧
    removeResolved [1] [locEp100, locEp200] =
      some ([locEp100, locEp200].filter
        fun l => decide (l.entryID ∉ ([1] : List Int))) :=
  ⟨by decide,
   (resolved_removal_distinct_ids [1] [locEp100, locEp200] (by decide)).1⟩

end VeriToplama
